import Mathlib

/-!
Verification of the notes application (`src/main.py`): a SQLite-backed
store (`NotesManager`), a delegating facade (`NotesApp`) and an
interactive menu loop (`main`).  The SQLite table is

  CREATE TABLE IF NOT EXISTS notes (
    id INTEGER PRIMARY KEY AUTOINCREMENT, title TEXT, content TEXT)

We model the database state shallowly: the rows in rowid order plus the
AUTOINCREMENT sequence counter (`sqlite_sequence`), and embed the
relevant SQLite semantics (type-affinity conversion of TEXT operands
compared against the INTEGER `id` column, and `LIKE` pattern matching)
as executable Lean functions.
-/

namespace NotesDB

/-- One row of the `notes` table. -/
structure Note where
  id : Int
  title : String
  content : String
  deriving Repr, DecidableEq

/-- The observable state of a `NotesManager`: the rows of the `notes`
table in rowid (storage) order, the AUTOINCREMENT counter held in
`sqlite_sequence` (largest id ever assigned; SQLite assigns `seq + 1`
to the next insert and never reuses ids), and whether `close` has been
called on the connection. -/
structure NotesManager where
  notes : List Note
  seq : Int
  closed : Bool
  deriving Repr, DecidableEq

/-- A value bound to a `?` placeholder by the Python `sqlite3` driver:
the program passes Python `str` (TEXT) from user input and, in
principle, `int` (INTEGER). -/
inductive SQLVal where
  | int (n : Int)
  | text (s : String)
  deriving Repr, DecidableEq

/-- Whitespace accepted around a numeric literal by SQLite's
text-to-numeric conversion: space, tab, newline, vertical tab, form
feed, carriage return. -/
def isSqlSpace (c : Char) : Bool :=
  c = ' ' || c = '\t' || c = '\n' || c = '\r' ||
    c = Char.ofNat 11 || c = Char.ofNat 12

/-- Numeric value of a list of decimal digits, most significant first. -/
def digitsToNat (ds : List Char) : Nat :=
  ds.foldl (fun a c => 10 * a + (c.toNat - 48)) 0

/-- Optional leading sign of a numeric literal. -/
def parseSign : List Char → Int × List Char
  | '+' :: cs => (1, cs)
  | '-' :: cs => (-1, cs)
  | cs => (1, cs)

/-- Optional exponent part closing a numeric literal: either nothing,
or `e`/`E`, an optional sign and a nonempty digit run consuming the
rest of the input.  Returns the signed exponent. -/
def parseExp : List Char → Option Int
  | [] => some 0
  | e :: cs =>
    if e = 'e' || e = 'E' then
      let (sg, cs1) := parseSign cs
      let ds := cs1.takeWhile Char.isDigit
      if ds.isEmpty || !(cs1.dropWhile Char.isDigit).isEmpty then none
      else some (sg * (digitsToNat ds : Int))
    else none

/-- An exact decimal fraction `num / 10 ^ denPow`, the value of a
numeric literal kept unreduced so that every operation on it is plain
integer arithmetic. -/
structure SQLNum where
  num : Int
  denPow : Nat
  deriving Repr, DecidableEq

/-- The rational value `num / 10 ^ denPow` of a parsed literal. -/
def SQLNum.val (r : SQLNum) : Rat :=
  (r.num : Rat) / ((10 : Rat) ^ r.denPow)

/-- Equality of the literal's value with an integer, by
cross-multiplication (the denominator `10 ^ denPow` is positive). -/
def SQLNum.eqInt (r : SQLNum) (i : Int) : Bool :=
  r.num = i * (10 : Int) ^ r.denPow

/-- Value denoted by a parsed literal: sign, integer-part digits,
fraction digits, and signed exponent. -/
def numOfParts (sg : Int) (ip fp : List Char) (ex : Int) : SQLNum :=
  let mant : Int :=
    sg * ((digitsToNat ip * 10 ^ fp.length + digitsToNat fp : Nat) : Int)
  if 0 ≤ ex then ⟨mant * (10 : Int) ^ ex.toNat, fp.length⟩
  else ⟨mant, fp.length + (-ex).toNat⟩

/-- SQLite's conversion of a TEXT value to a number when it is compared
against a column of INTEGER affinity (`WHERE id = ?`): the whole
string, after stripping surrounding whitespace, must be a well-formed
decimal integer or real literal (optional sign, digits with an optional
fraction part or a leading-dot fraction, optional `e`/`E` exponent);
otherwise the value stays TEXT and compares unequal to every integer.
We compute the exact rational value; SQLite itself evaluates real
literals in 8-byte binary floating point, which differs only beyond 15
significant digits and for magnitudes outside the 64-bit range. -/
def sqliteTextToNum (s : String) : Option SQLNum :=
  let cs := ((s.toList.dropWhile isSqlSpace).reverse.dropWhile isSqlSpace).reverse
  if cs.isEmpty then none else
  let (sg, cs1) := parseSign cs
  let ip := cs1.takeWhile Char.isDigit
  match cs1.dropWhile Char.isDigit with
  | '.' :: cs3 =>
    let fp := cs3.takeWhile Char.isDigit
    if ip.isEmpty && fp.isEmpty then none
    else
      match parseExp (cs3.dropWhile Char.isDigit) with
      | some ex => some (numOfParts sg ip fp ex)
      | none => none
  | rest =>
    if ip.isEmpty then none
    else
      match parseExp rest with
      | some ex => some (numOfParts sg ip [] ex)
      | none => none

/-- Does a bound parameter match a stored INTEGER id, per SQLite
comparison affinity: INTEGER compares numerically; TEXT is converted by
`sqliteTextToNum` and, failing that, belongs to a higher storage class
than every INTEGER. -/
def SQLVal.matchesId : SQLVal → Int → Bool
  | .int n, i => n = i
  | .text s, i =>
    match sqliteTextToNum s with
    | some r => r.eqInt i
    | none => false

/-- SQLite `LIKE`: `%` matches any sequence of characters, `_` matches
exactly one character, and ordinary characters compare
case-insensitively on ASCII only (`Char.toLower` lowercases exactly
the ASCII range, matching SQLite's default `like`). -/
def likeMatch : List Char → List Char → Bool
  | [], ss => ss.isEmpty
  | p :: ps, ss =>
    if p = '%' then
      (List.tails ss).any fun t => likeMatch ps t
    else
      match ss with
      | [] => false
      | c :: ss2 => (p = '_' || p.toLower = c.toLower) && likeMatch ps ss2

/-- The state of a fresh `NotesManager("...")` on a database file that
does not yet exist: `sqlite3.connect` creates an empty database and
`create_table` creates the empty `notes` table. -/
def NotesManager.init : NotesManager := ⟨[], 0, false⟩

/-- `create_table`: `CREATE TABLE IF NOT EXISTS` leaves an existing
table, its rows and its sequence counter untouched. -/
def NotesManager.create_table (m : NotesManager) : NotesManager := m

/-- `add_note`: `INSERT INTO notes (title, content) VALUES (?, ?)`.
AUTOINCREMENT assigns id `seq + 1` and advances the counter; the new
row is appended in rowid order. -/
def NotesManager.add_note (m : NotesManager) (title content : String) :
    NotesManager :=
  { m with notes := m.notes ++ [⟨m.seq + 1, title, content⟩], seq := m.seq + 1 }

/-- `get_all_notes`: `SELECT id, title FROM notes` followed by
`fetchall`; rows come back in rowid order.  A SELECT leaves the
database unchanged, so the state is returned as-is. -/
def NotesManager.get_all_notes (m : NotesManager) :
    List (Int × String) × NotesManager :=
  (m.notes.map fun n => (n.id, n.title), m)

/-- `get_note_details`: `SELECT title, content FROM notes WHERE id = ?`
followed by `fetchone`, which yields the first matching row or `None`. -/
def NotesManager.get_note_details (m : NotesManager) (note_id : SQLVal) :
    Option (String × String) × NotesManager :=
  (((m.notes.filter fun n => note_id.matchesId n.id).head?).map
    fun n => (n.title, n.content), m)

/-- `delete_note`: `DELETE FROM notes WHERE id = ?`; removes every
matching row (affecting zero rows is not an error) and leaves
`sqlite_sequence` untouched. -/
def NotesManager.delete_note (m : NotesManager) (note_id : SQLVal) :
    NotesManager :=
  { m with notes := m.notes.filter fun n => !note_id.matchesId n.id }

/-- `close`: releases the connection. -/
def NotesManager.close (m : NotesManager) : NotesManager :=
  { m with closed := true }

/-- `search_notes`: `SELECT id, title FROM notes WHERE content LIKE ?
OR title LIKE ?` with both placeholders bound to `f'%{keyword}%'`. -/
def NotesManager.search_notes (m : NotesManager) (keyword : String) :
    List (Int × String) × NotesManager :=
  let pat := '%' :: (keyword.toList ++ ['%'])
  ((m.notes.filter fun n =>
      likeMatch pat n.content.toList || likeMatch pat n.title.toList).map
    fun n => (n.id, n.title), m)

/-- `NotesApp`: the facade holds exactly a `NotesManager` and nothing
else. -/
structure NotesApp where
  manager : NotesManager
  deriving Repr, DecidableEq

/-- `NotesApp.add_note` delegates to `NotesManager.add_note`. -/
def NotesApp.add_note (a : NotesApp) (title content : String) : NotesApp :=
  { a with manager := a.manager.add_note title content }

/-- `NotesApp.get_all_notes` delegates to `NotesManager.get_all_notes`. -/
def NotesApp.get_all_notes (a : NotesApp) : List (Int × String) × NotesApp :=
  let r := a.manager.get_all_notes
  (r.1, { a with manager := r.2 })

/-- `NotesApp.get_note_details` delegates to
`NotesManager.get_note_details`. -/
def NotesApp.get_note_details (a : NotesApp) (note_id : SQLVal) :
    Option (String × String) × NotesApp :=
  let r := a.manager.get_note_details note_id
  (r.1, { a with manager := r.2 })

/-- `NotesApp.delete_note` delegates to `NotesManager.delete_note`. -/
def NotesApp.delete_note (a : NotesApp) (note_id : SQLVal) : NotesApp :=
  { a with manager := a.manager.delete_note note_id }

/-- `NotesApp.close` delegates to `NotesManager.close`. -/
def NotesApp.close (a : NotesApp) : NotesApp :=
  { a with manager := a.manager.close }

/-- `NotesApp.search_notes` delegates to `NotesManager.search_notes`. -/
def NotesApp.search_notes (a : NotesApp) (keyword : String) :
    List (Int × String) × NotesApp :=
  let r := a.manager.search_notes keyword
  (r.1, { a with manager := r.2 })

/-- One call against the storage layer, for reasoning about arbitrary
single-threaded sequences of operations. -/
inductive Op where
  | add (title content : String)
  | getAll
  | get (v : SQLVal)
  | del (v : SQLVal)
  | search (k : String)
  deriving Repr, DecidableEq

/-- State reached after one operation. -/
def applyOp (m : NotesManager) : Op → NotesManager
  | .add t c => m.add_note t c
  | .getAll => (m.get_all_notes).2
  | .get v => (m.get_note_details v).2
  | .del v => m.delete_note v
  | .search k => (m.search_notes k).2

/-- State reached after a sequence of operations. -/
def runOps (m : NotesManager) (ops : List Op) : NotesManager :=
  ops.foldl applyOp m

/-- The ids AUTOINCREMENT hands out to the `add` calls of a trace, in
order: each insert receives `seq + 1` of the state it runs in. -/
def assignedIds (m : NotesManager) : List Op → List Int
  | [] => []
  | op :: ops =>
    match op with
    | .add _ _ => (m.seq + 1) :: assignedIds (applyOp m op) ops
    | _ => assignedIds (applyOp m op) ops

/-- Invariant of every reachable database state: no row's id exceeds
the sequence counter, and rows sit in strictly increasing id order
(rowid order coincides with id order). -/
def Wf (m : NotesManager) : Prop :=
  (∀ n ∈ m.notes, n.id ≤ m.seq) ∧ m.notes.Pairwise fun a b => a.id < b.id

instance (m : NotesManager) : Decidable (Wf m) := by
  unfold Wf; infer_instance

/-- One iteration of the interactive loop in `main`: consume the menu
choice and the further `input()` lines that branch reads, perform the
dispatched call, and either go round again, exit (choice 6), or block
forever on `input()` when stdin has run dry. -/
inductive StepResult where
  | cont (app : NotesApp) (rest : List String)
  | exit (app : NotesApp)
  | starved
  deriving Repr, DecidableEq

/-- The dispatch of `main`'s loop body on the list of remaining input
lines, mirroring the `if choice == "1" ... elif ... else` chain
(printing omitted: it does not touch the store). -/
def shellStep (app : NotesApp) : List String → StepResult
  | [] => .starved
  | choice :: rest =>
    if choice = "1" then
      match rest with
      | title :: content :: rest2 => .cont (app.add_note title content) rest2
      | _ => .starved
    else if choice = "2" then
      .cont (app.get_all_notes).2 rest
    else if choice = "3" then
      match rest with
      | nid :: rest2 => .cont (app.get_note_details (.text nid)).2 rest2
      | [] => .starved
    else if choice = "4" then
      match rest with
      | nid :: rest2 => .cont (app.delete_note (.text nid)) rest2
      | [] => .starved
    else if choice = "6" then
      .exit app.close
    else if choice = "5" then
      match rest with
      | kw :: rest2 => .cont (app.search_notes kw).2 rest2
      | [] => .starved
    else
      .cont app rest

/-- Outcome of running the `while True` loop for at most `fuel`
iterations. -/
inductive RunResult where
  | exited (app : NotesApp)
  | running (app : NotesApp) (rest : List String)
  | starved
  deriving Repr, DecidableEq

/-- Run `main`'s loop for at most `fuel` iterations on the given input
lines. -/
def runShell : Nat → NotesApp → List String → RunResult
  | 0, app, inp => .running app inp
  | fuel + 1, app, inp =>
    match shellStep app inp with
    | .cont a rest => runShell fuel a rest
    | .exit a => .exited a
    | .starved => .starved

/-! ### Invariant lemmas -/

theorem wf_init : Wf NotesManager.init := by
  constructor <;> simp [NotesManager.init]

theorem wf_add_note (m : NotesManager) (h : Wf m) (title content : String) :
    Wf (m.add_note title content) := by
  obtain ⟨hle, hsort⟩ := h
  constructor
  · intro n hn
    simp only [NotesManager.add_note, List.mem_append, List.mem_singleton] at hn ⊢
    rcases hn with hn | rfl
    · have := hle n hn; omega
    · simp
  · simp only [NotesManager.add_note]
    rw [List.pairwise_append]
    refine ⟨hsort, List.pairwise_singleton _ _, ?_⟩
    intro a ha b hb
    simp only [List.mem_singleton] at hb
    subst hb
    have := hle a ha
    simp
    omega

theorem wf_delete_note (m : NotesManager) (h : Wf m) (v : SQLVal) :
    Wf (m.delete_note v) := by
  obtain ⟨hle, hsort⟩ := h
  constructor
  · intro n hn
    simp only [NotesManager.delete_note] at hn
    exact hle n (List.mem_of_mem_filter hn)
  · exact hsort.sublist (List.filter_sublist _)

theorem wf_applyOp (m : NotesManager) (h : Wf m) (op : Op) :
    Wf (applyOp m op) := by
  cases op with
  | add t c => exact wf_add_note m h t c
  | getAll => exact h
  | get v => exact h
  | del v => exact wf_delete_note m h v
  | search k => exact h

theorem wf_runOps (m : NotesManager) (h : Wf m) (ops : List Op) :
    Wf (runOps m ops) := by
  induction ops generalizing m with
  | nil => exact h
  | cons op ops ih => exact ih _ (wf_applyOp m h op)

theorem seq_le_applyOp (m : NotesManager) (op : Op) :
    m.seq ≤ (applyOp m op).seq := by
  cases op <;>
    simp [applyOp, NotesManager.add_note, NotesManager.get_all_notes,
      NotesManager.get_note_details, NotesManager.delete_note,
      NotesManager.search_notes]

theorem seq_lt_assignedIds (ops : List Op) :
    ∀ (m : NotesManager), ∀ i ∈ assignedIds m ops, m.seq < i := by
  induction ops with
  | nil => intro m i hi; simp [assignedIds] at hi
  | cons op ops ih =>
    intro m i hi
    have hle := seq_le_applyOp m op
    cases op with
    | add t c =>
      simp only [assignedIds, List.mem_cons] at hi
      rcases hi with rfl | hi
      · omega
      · have := ih (applyOp m (.add t c)) i hi
        omega
    | getAll => exact lt_of_le_of_lt hle (ih _ i hi)
    | get v => exact lt_of_le_of_lt hle (ih _ i hi)
    | del v => exact lt_of_le_of_lt hle (ih _ i hi)
    | search k => exact lt_of_le_of_lt hle (ih _ i hi)

/-! ### LIKE-matcher lemmas -/

theorem likeMatch_pct (ps ss : List Char) :
    likeMatch ('%' :: ps) ss = true ↔ ∃ t, t <:+ ss ∧ likeMatch ps t = true := by
  simp [likeMatch, List.any_eq_true, List.mem_tails]

theorem likeMatch_plain_pct (p : List Char)
    (hp : ∀ c ∈ p, c ≠ '%' ∧ c ≠ '_') (ss : List Char) :
    likeMatch (p ++ ['%']) ss = true ↔
      (p.map Char.toLower) <+: (ss.map Char.toLower) := by
  induction p generalizing ss with
  | nil =>
    simp only [List.nil_append, List.map_nil]
    constructor
    · intro _
      exact List.nil_prefix
    · intro _
      rw [show (['%'] : List Char) = '%' :: [] from rfl, likeMatch_pct]
      exact ⟨[], List.nil_suffix, rfl⟩
  | cons a p ih =>
    have ha := hp a (List.mem_cons_self a p)
    have hp' : ∀ c ∈ p, c ≠ '%' ∧ c ≠ '_' :=
      fun c hc => hp c (List.mem_cons_of_mem a hc)
    cases ss with
    | nil =>
      simp only [List.cons_append, likeMatch, if_neg ha.1, List.map_cons,
        List.map_nil]
      simp [List.prefix_nil]
    | cons c ss2 =>
      simp only [List.cons_append, likeMatch, if_neg ha.1, List.map_cons,
        Bool.and_eq_true, Bool.or_eq_true, decide_eq_true_eq,
        List.cons_prefix_cons, List.append_eq]
      rw [ih hp' ss2]
      simp [ha.2]

theorem likeMatch_infix_iff (kw ss : List Char)
    (hkw : ∀ c ∈ kw, c ≠ '%' ∧ c ≠ '_') :
    likeMatch ('%' :: (kw ++ ['%'])) ss = true ↔
      (kw.map Char.toLower) <:+: (ss.map Char.toLower) := by
  rw [likeMatch_pct]
  constructor
  · rintro ⟨t, hts, hm⟩
    rw [likeMatch_plain_pct kw hkw t] at hm
    exact List.infix_iff_prefix_suffix.mpr
      ⟨t.map Char.toLower, hm, hts.map Char.toLower⟩
  · intro h
    obtain ⟨t', hpre, hsuf⟩ := List.infix_iff_prefix_suffix.mp h
    obtain ⟨u, hu⟩ := hsuf
    obtain ⟨l₁, l₂, rfl, _, hm2⟩ := List.map_eq_append_iff.mp hu.symm
    refine ⟨l₂, ⟨l₁, rfl⟩, ?_⟩
    rw [likeMatch_plain_pct kw hkw l₂, hm2]
    exact hpre

/-! ### Lookup helper lemmas -/

theorem SQLNum.eqInt_iff_val (r : SQLNum) (i : Int) :
    r.eqInt i = true ↔ r.val = (i : Rat) := by
  have h10 : ((10 : Rat) ^ r.denPow) ≠ 0 := by positivity
  rw [SQLNum.eqInt, SQLNum.val, decide_eq_true_eq, div_eq_iff h10]
  constructor
  · intro h
    exact_mod_cast congrArg (fun z : Int => (z : Rat)) h
  · intro h
    exact_mod_cast h

theorem filter_id_eq_of_pairwise (l : List Note)
    (hl : l.Pairwise fun a b => a.id < b.id) (note : Note)
    (hmem : note ∈ l) :
    l.filter (fun n => n.id == note.id) = [note] := by
  induction l with
  | nil => cases hmem
  | cons a t ih =>
    rw [List.pairwise_cons] at hl
    rcases List.mem_cons.mp hmem with rfl | hmem2
    · have ht : t.filter (fun n => n.id == note.id) = [] := by
        rw [List.filter_eq_nil_iff]
        intro n hn
        have := hl.1 n hn
        simp only [beq_iff_eq]
        omega
      simp [List.filter_cons, ht]
    · have hane : (a.id == note.id) = false := by
        have := hl.1 note hmem2
        simp only [beq_eq_false_iff_ne, ne_eq]
        omega
      simp [List.filter_cons, hane, ih hl.2 hmem2]

theorem no_match_get_delete (m : NotesManager) (v : SQLVal)
    (h : ∀ n ∈ m.notes, v.matchesId n.id = false) :
    (m.get_note_details v).1 = none ∧ m.delete_note v = m := by
  constructor
  · have hnil : m.notes.filter (fun n => v.matchesId n.id) = [] := by
      rw [List.filter_eq_nil_iff]
      intro n hn
      simp [h n hn]
    simp [NotesManager.get_note_details, hnil]
  · have hself : m.notes.filter (fun n => !v.matchesId n.id) = m.notes := by
      rw [List.filter_eq_self]
      intro n hn
      simp [h n hn]
    simp [NotesManager.delete_note, hself]

/-! ### Claim theorems (first group) -/

/-- C1: for every title and content string (empty ones included),
`add_note title content` followed by `get_note_details` on the id the
insertion received (`seq + 1`) returns exactly `(title, content)`. -/
theorem C1_add_get_roundtrip (m : NotesManager) (title content : String)
    (h : Wf m) :
    ((m.add_note title content).get_note_details (.int (m.seq + 1))).1
      = some (title, content) := by
  unfold NotesManager.add_note NotesManager.get_note_details
  simp only [List.filter_append]
  have h1 : m.notes.filter (fun n => (SQLVal.int (m.seq + 1)).matchesId n.id)
      = [] := by
    rw [List.filter_eq_nil_iff]
    intro n hn
    have := h.1 n hn
    simp only [SQLVal.matchesId, decide_eq_true_eq]
    omega
  rw [h1]
  simp [SQLVal.matchesId]

/-- C1 witness: concrete round trip, empty strings included. -/
theorem C1_witness :
    Wf ⟨[⟨1, "Shopping", "milk, eggs"⟩], 1, false⟩ ∧
      ((NotesManager.add_note ⟨[⟨1, "Shopping", "milk, eggs"⟩], 1, false⟩
          "" "").get_note_details (.int 2)).1 = some ("", "") :=
  ⟨by decide, C1_add_get_roundtrip ⟨[⟨1, "Shopping", "milk, eggs"⟩], 1, false⟩
    "" "" (by decide)⟩

/-- C3: along any single-threaded trace of operations (deletes
included), the ids handed out by the `add` calls are strictly
increasing and pairwise distinct; since every id ever assigned exceeds
every earlier one, an id freed by a delete is never assigned again. -/
theorem C3_ids_strictly_increasing (m : NotesManager) (ops : List Op) :
    (assignedIds m ops).Pairwise (· < ·) ∧
      (assignedIds m ops).Pairwise (· ≠ ·) := by
  have main : ∀ (ops : List Op) (m : NotesManager),
      (assignedIds m ops).Pairwise (· < ·) := by
    intro ops
    induction ops with
    | nil => intro m; simp [assignedIds]
    | cons op ops ih =>
      intro m
      cases op with
      | add t c =>
        simp only [assignedIds]
        refine List.Pairwise.cons ?_ (ih _)
        intro i hi
        have h1 := seq_lt_assignedIds ops (applyOp m (.add t c)) i hi
        have h2 : (applyOp m (.add t c)).seq = m.seq + 1 := rfl
        omega
      | getAll => exact ih _
      | get v => exact ih _
      | del v => exact ih _
      | search k => exact ih _
  exact ⟨main ops m, (main ops m).imp ne_of_lt⟩

/-- C4: deleting an id is idempotent and total — a second delete of the
same id changes nothing, a lookup after the delete is absent, and a
delete that matches no row leaves the store exactly as it was. -/
theorem C4_delete_idempotent (m : NotesManager) (v : SQLVal) :
    (m.delete_note v).delete_note v = m.delete_note v ∧
      ((m.delete_note v).get_note_details v).1 = none ∧
      ((∀ n ∈ m.notes, v.matchesId n.id = false) → m.delete_note v = m) := by
  refine ⟨?_, ?_, ?_⟩
  · simp [NotesManager.delete_note, List.filter_filter]
  · simp [NotesManager.delete_note, NotesManager.get_note_details,
      List.filter_filter]
  · intro h
    have : m.notes.filter (fun n => !v.matchesId n.id) = m.notes := by
      rw [List.filter_eq_self]
      intro n hn
      simp [h n hn]
    simp [NotesManager.delete_note, this]

/-- C4 witness: double delete and post-delete lookup on a concrete
store, plus a delete that touches zero rows. -/
theorem C4_witness :
    ((NotesManager.delete_note ⟨[⟨1, "a", "b"⟩], 1, false⟩
          (.int 1)).delete_note (.int 1)
        = NotesManager.delete_note ⟨[⟨1, "a", "b"⟩], 1, false⟩ (.int 1)) ∧
      ((NotesManager.delete_note ⟨[⟨1, "a", "b"⟩], 1, false⟩
            (.int 1)).get_note_details (.int 1)).1 = none ∧
      NotesManager.delete_note ⟨[⟨1, "a", "b"⟩], 1, false⟩ (.int 7)
        = ⟨[⟨1, "a", "b"⟩], 1, false⟩ := by
  have h := C4_delete_idempotent ⟨[⟨1, "a", "b"⟩], 1, false⟩ (.int 1)
  have h7 := C4_delete_idempotent ⟨[⟨1, "a", "b"⟩], 1, false⟩ (.int 7)
  exact ⟨h.1, h.2.1, h7.2.2 (by decide)⟩

/-- C5: an id value that matches no stored row — among them every
malformed non-numeric string — makes `get_note_details` return `None`
and `delete_note` return with the store untouched; neither can fail. -/
theorem C5_nonmatching_id (m : NotesManager) (v : SQLVal)
    (h : ∀ n ∈ m.notes, v.matchesId n.id = false) :
    (m.get_note_details v).1 = none ∧ m.delete_note v = m :=
  no_match_get_delete m v h

/-- C5 witness: the malformed id `"abc"` against a concrete store. -/
theorem C5_witness :
    (NotesManager.get_note_details ⟨[⟨1, "a", "b"⟩], 1, false⟩
        (.text "abc")).1 = none ∧
      NotesManager.delete_note ⟨[⟨1, "a", "b"⟩], 1, false⟩ (.text "abc")
        = ⟨[⟨1, "a", "b"⟩], 1, false⟩ :=
  C5_nonmatching_id ⟨[⟨1, "a", "b"⟩], 1, false⟩ (.text "abc") (by decide)

/-- C6: `get_all_notes` returns exactly one `(id, title)` pair per row
(content never included), in ascending id order, and returns `[]` on a
fresh store. -/
theorem C6_get_all_notes (m : NotesManager) (h : Wf m) :
    (m.get_all_notes).1 = (m.notes.map fun n => (n.id, n.title)) ∧
      ((m.get_all_notes).1.map Prod.fst).Pairwise (· < ·) ∧
      (NotesManager.init.get_all_notes).1 = [] := by
  refine ⟨rfl, ?_, rfl⟩
  simp only [NotesManager.get_all_notes, List.map_map, List.pairwise_map]
  exact h.2

/-- C6 witness: the two-note scenario store. -/
theorem C6_witness :
    (NotesManager.get_all_notes
        ⟨[⟨1, "Shopping", "milk, eggs"⟩, ⟨2, "Todo", "write report"⟩], 2,
          false⟩).1 = [(1, "Shopping"), (2, "Todo")] ∧
      (NotesManager.init.get_all_notes).1 = [] := by
  have h := C6_get_all_notes
    ⟨[⟨1, "Shopping", "milk, eggs"⟩, ⟨2, "Todo", "write report"⟩], 2, false⟩
    (by decide)
  exact ⟨by rw [h.1]; decide, h.2.2⟩

/-- C7: every facade operation forwards its arguments unchanged to the
storage layer and hands its result back unchanged; the facade carries
no state beyond the manager itself. -/
theorem C7_facade_delegates (a : NotesApp) (title content : String)
    (v : SQLVal) (k : String) :
    (a.add_note title content).manager = a.manager.add_note title content ∧
      (a.get_all_notes).1 = (a.manager.get_all_notes).1 ∧
      (a.get_all_notes).2.manager = (a.manager.get_all_notes).2 ∧
      (a.get_note_details v).1 = (a.manager.get_note_details v).1 ∧
      (a.get_note_details v).2.manager = (a.manager.get_note_details v).2 ∧
      (a.delete_note v).manager = a.manager.delete_note v ∧
      (a.close).manager = a.manager.close ∧
      (a.search_notes k).1 = (a.manager.search_notes k).1 ∧
      (a.search_notes k).2.manager = (a.manager.search_notes k).2 ∧
      (∀ b : NotesApp, a.manager = b.manager → a = b) :=
  ⟨rfl, rfl, rfl, rfl, rfl, rfl, rfl, rfl, rfl, fun b hb => by
    cases a; cases b; simpa using hb⟩

/-- C2 counterexample: the keyword `"%"` is not a literal substring of
the title `"a"` nor of the empty content, yet `search_notes` returns
the note, because SQL `LIKE` treats `%` as a wildcard rather than a
literal character. -/
theorem C2_counterexample :
    (NotesManager.search_notes ⟨[⟨1, "a", ""⟩], 1, false⟩ "%").1
        = [(1, "a")] ∧
      ¬ ("%".toList <:+: "a".toList) ∧ ¬ ("%".toList <:+: "".toList) := by
  refine ⟨by decide, by decide, by decide⟩

/-- C2 (amended): `search_notes keyword` returns exactly the `(id,
title)` pairs of the notes whose content or title matches the LIKE
pattern `%keyword%`; for keywords free of the wildcard characters `%`
and `_` that is exactly ASCII-case-insensitive substring containment,
`search_notes ""` returns every note, and a search with no matches is
the empty list, not an error. -/
theorem C2_search_characterisation (m : NotesManager) (kw : String)
    (hkw : ∀ c ∈ kw.toList, c ≠ '%' ∧ c ≠ '_') :
    (∀ i t, (i, t) ∈ (m.search_notes kw).1 ↔
        ∃ n ∈ m.notes, n.id = i ∧ n.title = t ∧
          ((kw.toList.map Char.toLower) <:+:
              (n.content.toList.map Char.toLower) ∨
            (kw.toList.map Char.toLower) <:+:
              (n.title.toList.map Char.toLower))) ∧
      (m.search_notes "").1 = (m.notes.map fun n => (n.id, n.title)) := by
  constructor
  · intro i t
    simp only [NotesManager.search_notes, List.mem_map, List.mem_filter]
    constructor
    · rintro ⟨n, ⟨hn, hcond⟩, heq⟩
      rw [Bool.or_eq_true, likeMatch_infix_iff _ _ hkw,
        likeMatch_infix_iff _ _ hkw] at hcond
      obtain ⟨h1, h2⟩ := Prod.mk.injEq .. ▸ heq
      exact ⟨n, hn, h1, h2, hcond⟩
    · rintro ⟨n, hn, h1, h2, hcond⟩
      refine ⟨n, ⟨hn, ?_⟩, by rw [h1, h2]⟩
      rw [Bool.or_eq_true, likeMatch_infix_iff _ _ hkw,
        likeMatch_infix_iff _ _ hkw]
      exact hcond
  · have hall : ∀ s : String,
        likeMatch ('%' :: ("".toList ++ ['%'])) s.toList = true := by
      intro s
      rw [likeMatch_infix_iff _ _ (by simp)]
      simp [List.nil_infix]
    simp only [NotesManager.search_notes]
    rw [List.filter_eq_self.mpr]
    intro n _
    rw [Bool.or_eq_true]
    exact Or.inl (hall n.content)

/-- C2 witness: the scenario store — searching `"egg"` finds note 1,
and the empty keyword lists both notes. -/
theorem C2_witness :
    ((1, "Shopping") ∈ (NotesManager.search_notes
        ⟨[⟨1, "Shopping", "milk, eggs"⟩, ⟨2, "Todo", "write report"⟩], 2,
          false⟩ "egg").1) ∧
      (NotesManager.search_notes
          ⟨[⟨1, "Shopping", "milk, eggs"⟩, ⟨2, "Todo", "write report"⟩], 2,
            false⟩ "").1 = [(1, "Shopping"), (2, "Todo")] := by
  have h := C2_search_characterisation
    ⟨[⟨1, "Shopping", "milk, eggs"⟩, ⟨2, "Todo", "write report"⟩], 2, false⟩
    "egg" (by decide)
  refine ⟨(h.1 1 "Shopping").mpr
    ⟨⟨1, "Shopping", "milk, eggs"⟩, by decide, rfl, rfl, Or.inl (by decide)⟩,
    ?_⟩
  rw [h.2]
  decide

/-- C10 counterexample: `"1.0"` is not the decimal representation of
any integer (it contains a character that is neither a digit nor a
sign), yet `get_note_details` resolves it to the row with id 1,
because SQLite's numeric affinity also converts real literals. -/
theorem C10_counterexample :
    ((NotesManager.get_note_details ⟨[⟨1, "t", "c"⟩], 1, false⟩
        (.text "1.0")).1 = some ("t", "c")) ∧
      ("1.0".toList.all fun c => c.isDigit || c = '-' || c = '+') = false := by
  exact ⟨by decide, by decide⟩

/-- C10 (amended): a string passed where an id is expected matches
exactly the rows whose id equals the string's value under SQLite's
text-to-numeric conversion — any well-formed, optionally signed,
whitespace-surrounded integer or real literal, so the decimal
representation of a stored id resolves to its row, but so do spellings
such as `"1.0"` or `" 1"` — and a string that is not a well-formed
numeric literal matches no row: the lookup is absent and the delete
leaves the store untouched. -/
theorem C10_text_id_resolution (m : NotesManager) (s : String) :
    (∀ note ∈ m.notes, Wf m → ∀ r, sqliteTextToNum s = some r →
        r.val = ((note.id : Int) : Rat) →
        ((m.get_note_details (.text s)).1 = some (note.title, note.content) ∧
          (m.delete_note (.text s)).notes
            = m.notes.filter fun n => !(n.id == note.id))) ∧
      (sqliteTextToNum s = none →
        ((m.get_note_details (.text s)).1 = none ∧
          m.delete_note (.text s) = m)) := by
  constructor
  · intro note hmem hwf r hsome hval
    have hpred : ∀ n : Note,
        (SQLVal.text s).matchesId n.id = (n.id == note.id) := by
      intro n
      rw [← Bool.coe_iff_coe]
      simp only [SQLVal.matchesId, hsome]
      rw [SQLNum.eqInt_iff_val, hval, beq_iff_eq]
      exact ⟨fun h => (Rat.intCast_inj.mp h).symm, fun h => by rw [h]⟩
    have hfilter :
        m.notes.filter (fun n => (SQLVal.text s).matchesId n.id) = [note] := by
      rw [List.filter_congr fun n _ => hpred n]
      exact filter_id_eq_of_pairwise m.notes hwf.2 note hmem
    constructor
    · simp [NotesManager.get_note_details, hfilter]
    · simp only [NotesManager.delete_note]
      exact List.filter_congr fun n _ => by rw [hpred n]
  · intro hnone
    exact no_match_get_delete m (.text s)
      fun n _ => by simp [SQLVal.matchesId, hnone]

/-- C10 witness: the decimal string `"2"` resolves to the row with id
2 for both lookup and delete. -/
theorem C10_witness :
    ((NotesManager.get_note_details
        ⟨[⟨1, "a", "b"⟩, ⟨2, "t", "c"⟩], 2, false⟩ (.text "2")).1
      = some ("t", "c")) ∧
      (NotesManager.delete_note
          ⟨[⟨1, "a", "b"⟩, ⟨2, "t", "c"⟩], 2, false⟩ (.text "2")).notes
        = [⟨1, "a", "b"⟩] := by
  have h := (C10_text_id_resolution
      ⟨[⟨1, "a", "b"⟩, ⟨2, "t", "c"⟩], 2, false⟩ "2").1
    ⟨2, "t", "c"⟩ (by decide) (by decide) ⟨2, 0⟩ (by decide)
    (by rw [← SQLNum.eqInt_iff_val]; decide)
  exact ⟨h.1, by rw [h.2]; decide⟩

/-! ### Shell-loop lemmas -/

theorem shellStep_exit_head (app : NotesApp) (c : String)
    (rest : List String) (a : NotesApp)
    (h : shellStep app (c :: rest) = .exit a) :
    c = "6" ∧ a = app.close := by
  simp only [shellStep] at h
  split_ifs at h with h1 h2 h3 h4 h6 h5
  all_goals rcases rest with _ | ⟨x, _ | ⟨y, r2⟩⟩ <;> simp_all

theorem shellStep_cont_suffix (app : NotesApp) (inp : List String)
    (a : NotesApp) (rest : List String)
    (h : shellStep app inp = .cont a rest) :
    rest <:+ inp := by
  cases inp with
  | nil => simp [shellStep] at h
  | cons c inp2 =>
    simp only [shellStep] at h
    split_ifs at h with h1 h2 h3 h4 h6 h5 <;>
      rcases inp2 with _ | ⟨x, _ | ⟨y, r2⟩⟩ <;> simp_all <;>
      first
        | exact List.suffix_cons _ _
        | exact (List.suffix_cons _ _).trans (List.suffix_cons _ _)
        | exact ((List.suffix_cons _ _).trans (List.suffix_cons _ _)).trans
            (List.suffix_cons _ _)

theorem runShell_exited_six (fuel : Nat) (app : NotesApp)
    (inp : List String) (a : NotesApp)
    (h : runShell fuel app inp = .exited a) : "6" ∈ inp := by
  induction fuel generalizing app inp with
  | zero => simp [runShell] at h
  | succ fuel ih =>
    simp only [runShell] at h
    cases hs : shellStep app inp with
    | cont a2 rest =>
      rw [hs] at h
      exact (shellStep_cont_suffix app inp a2 rest hs).subset (ih a2 rest h)
    | exit a2 =>
      cases inp with
      | nil => simp [shellStep] at hs
      | cons c rest =>
        have := (shellStep_exit_head app c rest a2 hs).1
        rw [this]
        exact List.mem_cons_self _ _
    | starved => rw [hs] at h; cases h

/-- C9: the read-only operations return the store exactly as given —
rows, ids, titles, contents, sequence counter and connection flag all
unchanged. -/
theorem C9_read_ops_frame (m : NotesManager) (v : SQLVal) (k : String) :
    (m.get_all_notes).2 = m ∧ (m.get_note_details v).2 = m ∧
      (m.search_notes k).2 = m :=
  ⟨rfl, rfl, rfl⟩

/-- C8: the interactive loop only ever terminates by reading the menu
choice `"6"` — any run that exits has read a `"6"` — and reading `"6"`
closes the storage layer and exits; a choice outside `"1"`–`"6"`
continues the loop with the store untouched and no further input
consumed. -/
theorem C8_loop_exit_only_on_six :
    (∀ (fuel : Nat) (app : NotesApp) (inp : List String) (a : NotesApp),
        runShell fuel app inp = .exited a → "6" ∈ inp) ∧
      (∀ (app : NotesApp) (rest : List String),
        shellStep app ("6" :: rest) = .exit app.close) ∧
      (∀ (app : NotesApp) (c : String) (rest : List String) (a : NotesApp),
        shellStep app (c :: rest) = .exit a → c = "6" ∧ a = app.close) ∧
      (∀ app : NotesApp, (app.close).manager.closed = true) ∧
      (∀ (app : NotesApp) (c : String) (rest : List String),
        c ∉ (["1", "2", "3", "4", "5", "6"] : List String) →
          shellStep app (c :: rest) = .cont app rest) := by
  refine ⟨runShell_exited_six, ?_, shellStep_exit_head, fun _ => rfl, ?_⟩
  · intro app rest
    rfl
  · intro app c rest hc
    simp only [List.mem_cons, List.mem_singleton, not_or] at hc
    obtain ⟨h1, h2, h3, h4, h5, h6⟩ := hc
    simp [shellStep, h1, h2, h3, h4, h5, h6]

/-- C8 witness: input `["6"]` exits (so `"6"` was read), and the
invalid choice `"x"` continues with the store unchanged. -/
theorem C8_witness :
    ("6" ∈ (["6"] : List String)) ∧
      shellStep ⟨NotesManager.init⟩ ["x"] = .cont ⟨NotesManager.init⟩ [] :=
  ⟨C8_loop_exit_only_on_six.1 1 (NotesApp.mk NotesManager.init) ["6"]
      (NotesApp.mk NotesManager.init).close (by decide),
    C8_loop_exit_only_on_six.2.2.2.2 (NotesApp.mk NotesManager.init) "x" []
      (by decide)⟩

end NotesDB
